import Mathlib

/-!
Shallow embedding of the go-envied generator (package `envied`).

The Go source reads `.env` files, infers a type for each variable,
obfuscates string/float values via per-rune XOR with pseudo-random keys,
checks that all environments define the same variable set, and emits a
single Go source file.  Pure functions are translated directly; file
contents, the wall clock and map iteration orders are explicit arguments.
-/

namespace GoEnvied

/-! ## Model of the Go standard library pieces the source uses -/

/-- Model of the `i`-th draw of `rand.New(rand.NewSource(src)).Intn(1 << 32)`.
Go's `math/rand` generator is a deterministic pure function of the source
seed; the program relies only on that determinism and on `Intn(1 << 32)`
returning a value in `[0, 2^32)`, which this model provides (the exact
stream values are irrelevant to every property proved below). -/
def mathRandIntn32 (src : Int) (i : Nat) : Nat :=
  ((src.emod (2 ^ 64)).toNat * 6364136223846793005 + i * 1442695040888963407 + 1) % (2 ^ 32)

theorem mathRandIntn32_lt (src : Int) (i : Nat) : mathRandIntn32 src i < 2 ^ 32 :=
  Nat.mod_lt _ (by norm_num)

/-- Go `^` (bitwise xor) on `int`, which is 64 bits wide: xor of the two's
complement bit patterns, reinterpreted as a signed value. -/
def goXor (a b : Int) : Int :=
  let r := (a.emod (2 ^ 64)).toNat ^^^ (b.emod (2 ^ 64)).toNat
  if r < 2 ^ 63 then (r : Int) else (r : Int) - 2 ^ 64

/-- Go conversion `rune(x)` for `x : int`: truncation to 32 bits, two's
complement signed. -/
def goRuneOfInt (x : Int) : Int :=
  let u := (x.emod (2 ^ 32)).toNat
  if u < 2 ^ 31 then (u : Int) else (u : Int) - 2 ^ 32

/-- Go conversion of one rune to a character during `string([]rune)`:
code points outside the valid Unicode scalar value range (negative,
beyond U+10FFFF, or a surrogate) become U+FFFD. -/
def goCharOfRune (r : Int) : Char :=
  if 0 ≤ r ∧ Char.isValidCharNat r.toNat then Char.ofNat r.toNat else '�'

/-! ## `ObfuscateString` / `DeobfuscateString` (source lines 72-105) -/

/-- Loop body of `ObfuscateString`: `for i, char := range runes`, drawing
`key := r.Intn(1 << 32)` (the `i`-th draw of the generator seeded with
`src`), storing `keys[i] = key` and `encryptedValues[i] = int(char) ^ key`.
Both xor operands are nonnegative (`int32` code point, key below `2^32`),
so Go's `int` xor agrees with `Nat` xor. -/
def obfuscateLoop (src : Int) : Nat → List Char → List Int × List Int
  | _, [] => ([], [])
  | i, c :: cs =>
    let key := mathRandIntn32 src i
    let rest := obfuscateLoop src (i + 1) cs
    (((key : Nat) : Int) :: rest.1, ((c.toNat ^^^ key : Nat) : Int) :: rest.2)

/-- `ObfuscateString(value, seed)` from the source.  The Go code seeds a
fresh `math/rand` generator from `time.Now().UnixNano()` when `seed == 0`
and from `seed` otherwise; the wall clock reading is the explicit extra
argument `now`. -/
def ObfuscateString (value : String) (seed : Int) (now : Int) : List Int × List Int :=
  obfuscateLoop (if seed = 0 then now else seed) 0 value.data

/-- `DeobfuscateString(keys, encryptedValues)` from the source: on a length
mismatch it returns `""`; otherwise `runes[i] = rune(keys[i] ^
encryptedValues[i])` and the rune slice is converted back to a string. -/
def DeobfuscateString (keys encryptedValues : List Int) : String :=
  if keys.length ≠ encryptedValues.length then ""
  else ⟨(keys.zip encryptedValues).map (fun p => goCharOfRune (goRuneOfInt (goXor p.1 p.2)))⟩

/-! ## Obfuscation lemmas -/

theorem goXor_of_nat (a b : Nat) (ha : a < 2 ^ 63) (hb : b < 2 ^ 63) :
    goXor (a : Int) (b : Int) = ((a ^^^ b : Nat) : Int) := by
  unfold goXor
  have hea : (a : Int).emod (2 ^ 64) = (a : Int) :=
    Int.emod_eq_of_lt (by positivity) (by exact_mod_cast lt_trans ha (by norm_num))
  have heb : (b : Int).emod (2 ^ 64) = (b : Int) :=
    Int.emod_eq_of_lt (by positivity) (by exact_mod_cast lt_trans hb (by norm_num))
  rw [hea, heb, Int.toNat_natCast, Int.toNat_natCast,
    if_pos (Nat.xor_lt_two_pow ha hb)]

theorem char_toNat_valid (c : Char) : Char.isValidCharNat c.toNat := by
  rcases c.valid with h | ⟨h1, h2⟩
  · exact Or.inl (by exact_mod_cast h)
  · exact Or.inr ⟨by exact_mod_cast h1, by exact_mod_cast h2⟩

theorem char_toNat_lt (c : Char) : c.toNat < 2 ^ 21 := by
  rcases char_toNat_valid c with h | ⟨_, h2⟩
  · exact lt_trans h (by norm_num)
  · exact lt_trans h2 (by norm_num)

/-- Recovering one character: xoring the key against the ciphertext value,
truncating to `rune` and converting back to a character is the identity. -/
theorem decode_char (c : Char) (k : Nat) (hk : k < 2 ^ 32) :
    goCharOfRune (goRuneOfInt (goXor ((k : Nat) : Int) ((c.toNat ^^^ k : Nat) : Int))) = c := by
  have hc : c.toNat < 2 ^ 32 := lt_trans (char_toNat_lt c) (by norm_num)
  have hx : (c.toNat ^^^ k) < 2 ^ 32 := Nat.xor_lt_two_pow hc hk
  rw [goXor_of_nat k (c.toNat ^^^ k) (lt_trans hk (by norm_num)) (lt_trans hx (by norm_num))]
  have hkc : k ^^^ (c.toNat ^^^ k) = c.toNat := by
    rw [Nat.xor_comm c.toNat k, ← Nat.xor_assoc, Nat.xor_self, Nat.zero_xor]
  rw [hkc]
  unfold goRuneOfInt
  have he : ((c.toNat : Int)).emod (2 ^ 32) = (c.toNat : Int) :=
    Int.emod_eq_of_lt (by positivity) (by exact_mod_cast hc)
  rw [he, Int.toNat_natCast, if_pos (lt_trans (char_toNat_lt c) (by norm_num))]
  unfold goCharOfRune
  rw [if_pos ⟨by positivity, by rw [Int.toNat_natCast]; exact char_toNat_valid c⟩,
    Int.toNat_natCast, Char.ofNat_toNat]

theorem obfuscateLoop_lengths (src : Int) :
    ∀ (cs : List Char) (i : Nat),
      (obfuscateLoop src i cs).1.length = cs.length ∧
      (obfuscateLoop src i cs).2.length = cs.length := by
  intro cs
  induction cs with
  | nil => intro i; exact ⟨rfl, rfl⟩
  | cons c cs ih =>
    intro i
    simpa [obfuscateLoop] using ih (i + 1)

theorem obfuscateLoop_decode (src : Int) :
    ∀ (cs : List Char) (i : Nat),
      ((obfuscateLoop src i cs).1.zip (obfuscateLoop src i cs).2).map
        (fun p => goCharOfRune (goRuneOfInt (goXor p.1 p.2))) = cs := by
  intro cs
  induction cs with
  | nil => intro i; rfl
  | cons c cs ih =>
    intro i
    simp only [obfuscateLoop, List.zip_cons_cons, List.map_cons, ih (i + 1)]
    rw [decode_char c _ (mathRandIntn32_lt src i)]

/-- Claim C1: for every string value and every 64-bit seed (including zero,
where the generator is seeded from the wall clock `now` instead),
`DeobfuscateString` applied to the `(keys, cipher)` pair returned by
`ObfuscateString(value, seed)` returns exactly the original value. -/
theorem claim_roundtrip (value : String) (seed now : Int) :
    DeobfuscateString (ObfuscateString value seed now).1 (ObfuscateString value seed now).2
      = value := by
  unfold ObfuscateString DeobfuscateString
  rw [if_neg]
  · rw [obfuscateLoop_decode]
  · rw [(obfuscateLoop_lengths _ value.data 0).1, (obfuscateLoop_lengths _ value.data 0).2]
    exact fun h => h rfl

/-- Claim C5: for a nonzero seed, `ObfuscateString` does not depend on the
wall clock: the generator is seeded once per call from the seed alone, so
two calls with the same `(value, seed)` return identical keys and identical
cipher sequences. -/
theorem claim_nonzero_seed_deterministic (value : String) (seed now₁ now₂ : Int)
    (h : seed ≠ 0) :
    ObfuscateString value seed now₁ = ObfuscateString value seed now₂ := by
  unfold ObfuscateString
  rw [if_neg h, if_neg h]

theorem claim_nonzero_seed_deterministic_witness :
    (42 : Int) ≠ 0 ∧ ObfuscateString "ab" 42 1 = ObfuscateString "ab" 42 999 :=
  ⟨by decide, claim_nonzero_seed_deterministic "ab" 42 1 999 (by decide)⟩

/-- Claim C6: whenever the two sequences have different lengths,
`DeobfuscateString` returns the empty string (defined degraded behavior,
not an error path). -/
theorem claim_length_mismatch (keys encryptedValues : List Int)
    (h : keys.length ≠ encryptedValues.length) :
    DeobfuscateString keys encryptedValues = "" := by
  unfold DeobfuscateString
  rw [if_pos h]

theorem claim_length_mismatch_witness :
    ([(0 : Int), 5]).length ≠ ([(3 : Int)]).length ∧
      DeobfuscateString [0, 5] [3] = "" :=
  ⟨by decide, claim_length_mismatch [0, 5] [3] (by decide)⟩

theorem obfuscateLoop_entries (src : Int) :
    ∀ (cs : List Char) (i j : Nat), j < cs.length →
      ∃ k : Nat, k < 2 ^ 32 ∧
        (obfuscateLoop src i cs).1.getD j 0 = (k : Int) ∧
        (obfuscateLoop src i cs).2.getD j 0 = (((cs.getD j 'a').toNat ^^^ k : Nat) : Int) := by
  intro cs
  induction cs with
  | nil => intro i j h; exact absurd h (Nat.not_lt_zero j)
  | cons c cs ih =>
    intro i j h
    cases j with
    | zero =>
      exact ⟨mathRandIntn32 src i, mathRandIntn32_lt src i, rfl, rfl⟩
    | succ j =>
      have hj : j < cs.length := Nat.lt_of_succ_lt_succ h
      obtain ⟨k, hk, h1, h2⟩ := ih (i + 1) j hj
      exact ⟨k, hk, h1, h2⟩

/-- Claim C9: `ObfuscateString(value, seed)` returns keys and cipher
sequences whose lengths both equal the number of Unicode scalar values of
`value`, with every key in `[0, 2^32)` and `cipher[i]` equal to the `i`-th
scalar value xored with `keys[i]`. -/
theorem claim_payload_postcondition (value : String) (seed now : Int) :
    (ObfuscateString value seed now).1.length = value.length ∧
    (ObfuscateString value seed now).2.length = value.length ∧
    ∀ j : Nat, j < value.length →
      ∃ k : Nat, k < 2 ^ 32 ∧
        (ObfuscateString value seed now).1.getD j 0 = (k : Int) ∧
        (ObfuscateString value seed now).2.getD j 0 =
          (((value.data.getD j 'a').toNat ^^^ k : Nat) : Int) := by
  have hlen : value.length = value.data.length := rfl
  refine ⟨?_, ?_, ?_⟩
  · rw [hlen]; exact (obfuscateLoop_lengths _ value.data 0).1
  · rw [hlen]; exact (obfuscateLoop_lengths _ value.data 0).2
  · intro j hj
    exact obfuscateLoop_entries _ value.data 0 j (by rwa [hlen] at hj)

theorem claim_payload_postcondition_witness :
    (ObfuscateString "ж" 7 0).1.length = ("ж" : String).length ∧
    (ObfuscateString "ж" 7 0).2.length = ("ж" : String).length ∧
    ∀ j : Nat, j < ("ж" : String).length →
      ∃ k : Nat, k < 2 ^ 32 ∧
        (ObfuscateString "ж" 7 0).1.getD j 0 = (k : Int) ∧
        (ObfuscateString "ж" 7 0).2.getD j 0 =
          ((((("ж" : String).data.getD j 'a')).toNat ^^^ k : Nat) : Int) :=
  claim_payload_postcondition "ж" 7 0

/-! ## Model of `strconv` parsers used by `DetectFieldType`

`strconv.ParseBool`, `strconv.Atoi` and `strconv.ParseFloat(·, 64)` are
used by the source only for their error result; the models below follow
the Go standard library's acceptance behavior (`strconv/atob.go`,
`strconv/atoi.go`, `strconv/atof.go`). -/

def isDigitChar (c : Char) : Bool := decide ('0' ≤ c ∧ c ≤ '9')

/-- ASCII lower-casing, as Go's `strconv` `lower(c) = c | 0x20` behaves on
the comparisons it is used for. -/
def asciiLower (c : Char) : Char :=
  if 'A' ≤ c ∧ c ≤ 'Z' then Char.ofNat (c.toNat + 32) else c

def isHexDigitChar (c : Char) : Bool :=
  isDigitChar c || decide ('a' ≤ asciiLower c ∧ asciiLower c ≤ 'f')

def digitVal (c : Char) : Nat := c.toNat - '0'.toNat

def hexDigitVal (c : Char) : Nat :=
  if isDigitChar c then digitVal c else (asciiLower c).toNat - 'a'.toNat + 10

/-- The exact token set accepted by `strconv.ParseBool`. -/
def goParseBoolOk (s : String) : Bool :=
  (["1", "t", "T", "TRUE", "true", "True",
    "0", "f", "F", "FALSE", "false", "False"] : List String).contains s

/-- Decimal value of a digit list, accumulator style (as `strconv`'s
conversion loop accumulates). -/
def decValAux (acc : Nat) : List Char → Nat
  | [] => acc
  | c :: cs => decValAux (acc * 10 + digitVal c) cs

/-- Model of `strconv.ParseUint(s, 10, 64)`: nonempty, decimal digits only
(no sign, no underscores since the base is given explicitly), value below
`2^64`. -/
def goParseUint64 (ds : List Char) : Option Nat :=
  if ds.isEmpty then none
  else if ds.all isDigitChar then
    if decValAux 0 ds < 2 ^ 64 then some (decValAux 0 ds) else none
  else none

/-- Signed range check of `strconv.ParseInt` for 64-bit `int`: an unsigned
magnitude at or above `2^63` fails for nonnegative results, above `2^63`
for negative ones. -/
def goParseIntRange (neg : Prop) [Decidable neg] (u : Option Nat) : Option Int :=
  match u with
  | none => none
  | some v =>
    if ¬ neg ∧ 2 ^ 63 ≤ v then none
    else if neg ∧ 2 ^ 63 < v then none
    else some (if neg then -(v : Int) else (v : Int))

/-- Model of `strconv.Atoi` = `ParseInt(s, 10, 0)` with 64-bit `int`:
optional `+`/`-` sign, then `ParseUint`, then the signed range check. -/
def goAtoi? (s : String) : Option Int :=
  match s.data with
  | [] => none
  | c :: cs =>
    goParseIntRange (c = '-') (goParseUint64 (if c = '+' ∨ c = '-' then cs else c :: cs))

def goAtoiOk (s : String) : Bool := (goAtoi? s).isSome

/-- Special float forms accepted by `strconv`'s `special`: an optionally
signed case-insensitive `inf` / `infinity`, or an unsigned case-insensitive
`nan`. -/
def goFloatSpecialOk (s : List Char) : Bool :=
  match s with
  | [] => false
  | c :: cs =>
    if c = '+' ∨ c = '-' then
      cs.map asciiLower == "inf".data || cs.map asciiLower == "infinity".data
    else
      s.map asciiLower == "inf".data || s.map asciiLower == "infinity".data ||
        s.map asciiLower == "nan".data

/-- Scanner state for the mantissa loop of `strconv`'s `readFloat`. -/
structure MScan where
  sawdot : Bool
  sawdigits : Bool
  mantissa : Nat
  nd : Nat
  dp : Int
  underscores : Bool

/-- Port of `readFloat`'s mantissa loop: digits (leading zeros shift the
decimal point), at most one `.`, underscores recorded and skipped
(validated afterwards by `underscoreOK`); unlike `readFloat` the full
mantissa is kept exactly, which is what the slow conversion path computes
with. -/
def scanMantissa (base : Nat) : MScan → List Char → MScan × List Char
  | st, [] => (st, [])
  | st, c :: cs =>
    if c = '_' then scanMantissa base { st with underscores := true } cs
    else if c = '.' then
      if st.sawdot then (st, c :: cs)
      else scanMantissa base { st with sawdot := true, dp := (st.nd : Int) } cs
    else if isDigitChar c || (decide (base = 16) && isHexDigitChar c) then
      if c = '0' ∧ st.nd = 0 then
        scanMantissa base { st with sawdigits := true, dp := st.dp - 1 } cs
      else
        scanMantissa base
          { st with
            sawdigits := true
            mantissa := st.mantissa * base + hexDigitVal c
            nd := st.nd + 1 } cs
    else (st, c :: cs)

/-- Port of `readFloat`'s exponent-digit loop: digits and underscores, the
accumulated exponent capped at five figures exactly as in the source. -/
def scanExpDigits : Int → Bool → List Char → Int × Bool × List Char
  | e, us, [] => (e, us, [])
  | e, us, c :: cs =>
    if c = '_' then scanExpDigits e true cs
    else if isDigitChar c then
      scanExpDigits (if e < 10000 then e * 10 + (digitVal c : Int) else e) us cs
    else (e, us, c :: cs)

/-- Result of `readFloat`: exact mantissa digits value, significant digit
count, the position of the radix point (binary for hex, decimal otherwise,
exponent already applied), hex flag and underscore flag. -/
structure FloatParts where
  mantissa : Nat
  nd : Nat
  dp : Int
  hex : Bool
  underscores : Bool

/-- Port of `strconv`'s `readFloat` followed by the full-consumption check
done by `ParseFloat`: optional sign, optional `0x`/`0X` prefix, mantissa
with at most one radix point, an exponent part (`e`/`E`, or mandatory
`p`/`P` for hex) with optional sign and at least one digit. -/
def goReadFloat (s0 : List Char) : Option FloatParts :=
  let s1 := match s0 with
    | c :: cs => if c = '+' ∨ c = '-' then cs else s0
    | [] => s0
  let hex : Bool := match s1 with
    | c1 :: c2 :: _ => c1 = '0' ∧ asciiLower c2 = 'x'
    | _ => false
  let s2 := if hex then s1.drop 2 else s1
  let base := if hex then 16 else 10
  let scanned := scanMantissa base ⟨false, false, 0, 0, 0, false⟩ s2
  let st := scanned.1
  let rest := scanned.2
  if !st.sawdigits then none
  else
    let dp1 : Int := if st.sawdot then st.dp else (st.nd : Int)
    let dp2 : Int := if hex then dp1 * 4 else dp1
    match rest with
    | [] => if hex then none else some ⟨st.mantissa, st.nd, dp2, hex, st.underscores⟩
    | c :: cs =>
      if asciiLower c = (if hex then 'p' else 'e') then
        let signArg : Int × List Char := match cs with
          | d :: ds => if d = '+' then (1, ds) else if d = '-' then (-1, ds) else (1, d :: ds)
          | [] => (1, [])
        match signArg.2 with
        | [] => none
        | d :: _ =>
          if ¬ isDigitChar d then none
          else
            let scanE := scanExpDigits 0 st.underscores signArg.2
            if !scanE.2.2.isEmpty then none
            else some ⟨st.mantissa, st.nd, dp2 + signArg.1 * scanE.1, hex, scanE.2.1⟩
      else none

/-- Port of `strconv.underscoreOK`: underscores may separate successive
digits (the base prefix counting as a digit). -/
def underscoreOKLoop (hexOk : Bool) : Char → List Char → Bool
  | saw, [] => saw ≠ '_'
  | saw, c :: cs =>
    if isDigitChar c || (hexOk && isHexDigitChar c) then underscoreOKLoop hexOk '0' cs
    else if c = '_' then
      if saw = '0' then underscoreOKLoop hexOk '_' cs else false
    else if saw = '_' then false
    else underscoreOKLoop hexOk '!' cs

def underscoreOK (s0 : List Char) : Bool :=
  let s1 := match s0 with
    | c :: cs => if c = '-' ∨ c = '+' then cs else s0
    | [] => s0
  match s1 with
  | c1 :: c2 :: rest =>
    if c1 = '0' ∧ (asciiLower c2 = 'b' ∨ asciiLower c2 = 'o' ∨ asciiLower c2 = 'x') then
      underscoreOKLoop (asciiLower c2 = 'x') '0' rest
    else underscoreOKLoop false '^' s1
  | _ => underscoreOKLoop false '^' s1

/-- Smallest magnitude that rounds to infinity in `float64` (round to
nearest, ties to even): `2^1024 - 2^970`. -/
def floatMaxBound : Nat := 2 ^ 1024 - 2 ^ 970

/-- Whether the scanned literal's exact magnitude rounds to infinity, the
condition under which `ParseFloat` reports a range error (underflow to
zero returns no error). -/
def floatOverflow (p : FloatParts) : Bool :=
  if p.mantissa = 0 then false
  else
    let b : Nat := if p.hex then 2 else 10
    let scale : Int := if p.hex then p.dp - 4 * (p.nd : Int) else p.dp - (p.nd : Int)
    if 0 ≤ scale then decide (floatMaxBound ≤ p.mantissa * b ^ scale.toNat)
    else decide (floatMaxBound * b ^ (-scale).toNat ≤ p.mantissa)

/-- Model of `strconv.ParseFloat(s, 64)` succeeding: a special form, or a
well-formed literal with correctly placed underscores whose value does not
overflow `float64`. -/
def goParseFloatOk (s : String) : Bool :=
  if goFloatSpecialOk s.data then true
  else
    match goReadFloat s.data with
    | none => false
    | some p => (!p.underscores || underscoreOK s.data) && !floatOverflow p

/-! ## `FieldType` and `DetectFieldType` (source lines 18-26, 204-223) -/

abbrev FieldType := String

def FieldTypeString : FieldType := "string"
def FieldTypeInt : FieldType := "int"
def FieldTypeBool : FieldType := "bool"
def FieldTypeFloat : FieldType := "float64"

/-- `DetectFieldType` from the source: try `ParseBool`, then `Atoi`, then
`ParseFloat`, defaulting to string. -/
def DetectFieldType (value : String) : FieldType :=
  if goParseBoolOk value then FieldTypeBool
  else if goAtoiOk value then FieldTypeInt
  else if goParseFloatOk value then FieldTypeFloat
  else FieldTypeString

/-! ## The spec's reference classifier (claim C2) -/

/-- Modelled from the spec's words, for comparison with `DetectFieldType`:
the recognized boolean token set of the claim. -/
def specBoolTokens : List String :=
  ["1", "t", "T", "TRUE", "true", "True",
   "0", "f", "F", "FALSE", "false", "False"]

/-- Modelled from the spec's words, for comparison with `DetectFieldType`:
a base-10 integer is an optional leading `-` followed by digits only. -/
def specIsIntLiteral (s : String) : Bool :=
  match s.data with
  | '-' :: ds => !ds.isEmpty && ds.all isDigitChar
  | ds => !ds.isEmpty && ds.all isDigitChar

def specScanDigits : List Char → Nat × List Char
  | [] => (0, [])
  | c :: cs =>
    if isDigitChar c then
      let r := specScanDigits cs
      (r.1 + 1, r.2)
    else (0, c :: cs)

/-- Exponent part per the spec's words: case-insensitive `e`/`E` marker,
optional sign, at least one digit. -/
def specExpPartOk : List Char → Bool
  | [] => false
  | c :: cs =>
    if c = 'e' ∨ c = 'E' then
      match cs with
      | [] => false
      | d :: ds =>
        if d = '+' ∨ d = '-' then !ds.isEmpty && ds.all isDigitChar
        else !cs.isEmpty && cs.all isDigitChar
    else false

/-- Modelled from the spec's words, for comparison with `DetectFieldType`:
a floating-point literal with optional leading `-`, a decimal point and/or
a case-insensitive exponent, and at least one digit. -/
def specIsFloatLiteral (s : String) : Bool :=
  let l := match s.data with
    | '-' :: cs => cs
    | cs => cs
  let scan1 := specScanDigits l
  match scan1.2 with
  | '.' :: r2 =>
    let scan2 := specScanDigits r2
    if scan1.1 + scan2.1 = 0 then false
    else scan2.2.isEmpty || specExpPartOk scan2.2
  | [] => false
  | _ => decide (scan1.1 ≠ 0) && specExpPartOk scan1.2

/-- Modelled from the spec's words (claim C2 as stated): the four-step
precedence Bool → Int → Float → String with the claim's predicates. -/
def specClassify (raw : String) : FieldType :=
  if specBoolTokens.contains raw then FieldTypeBool
  else if specIsIntLiteral raw then FieldTypeInt
  else if specIsFloatLiteral raw then FieldTypeFloat
  else FieldTypeString

/-- Counterexample to claim C2 as stated: `strconv.Atoi` also accepts a
leading `+`, so `DetectFieldType "+7"` is Int while the spec's four-step
reference classifies `"+7"` as String. -/
theorem claim_classifier_counterexample :
    DetectFieldType "+7" = FieldTypeInt ∧ specClassify "+7" = FieldTypeString ∧
      DetectFieldType "+7" ≠ specClassify "+7" := by
  decide

/-- Modelled from the spec's words as amended: an integer literal may carry
a leading `+` or `-` and its value must fit a signed 64-bit integer (on
overflow `Atoi` fails and classification falls through to Float). -/
def amendedIsIntLiteral (s : String) : Bool :=
  match s.data with
  | [] => false
  | c :: cs =>
    if c = '+' then (!cs.isEmpty && cs.all isDigitChar) && decide (decValAux 0 cs < 2 ^ 63)
    else if c = '-' then (!cs.isEmpty && cs.all isDigitChar) && decide (decValAux 0 cs ≤ 2 ^ 63)
    else (!(c :: cs).isEmpty && (c :: cs).all isDigitChar) && decide (decValAux 0 (c :: cs) < 2 ^ 63)

/-- Modelled from the spec's words as amended: same four-step precedence,
with the Int step corrected to `Atoi`'s acceptance and the Float step being
acceptance by the `float64` parser (including special forms, hex literals
and the overflow rejection). -/
def amendedClassify (raw : String) : FieldType :=
  if specBoolTokens.contains raw then FieldTypeBool
  else if amendedIsIntLiteral raw then FieldTypeInt
  else if goParseFloatOk raw then FieldTypeFloat
  else FieldTypeString

theorem goParseIntRange_some (neg : Prop) [Decidable neg] (v : Nat) :
    (goParseIntRange neg (some v)).isSome =
      if neg then decide (v ≤ 2 ^ 63) else decide (v < 2 ^ 63) := by
  show (if ¬ neg ∧ 2 ^ 63 ≤ v then (none : Option Int)
        else if neg ∧ 2 ^ 63 < v then none
        else some (if neg then -(v : Int) else (v : Int))).isSome =
      if neg then decide (v ≤ 2 ^ 63) else decide (v < 2 ^ 63)
  by_cases hneg : neg
  · by_cases hgt : 2 ^ 63 < v
    · rw [if_neg (fun hc : ¬ neg ∧ 2 ^ 63 ≤ v => hc.1 hneg),
        if_pos (⟨hneg, hgt⟩ : neg ∧ 2 ^ 63 < v), Option.isSome_none, if_pos hneg,
        decide_eq_false (not_le.mpr hgt)]
    · rw [if_neg (fun hc : ¬ neg ∧ 2 ^ 63 ≤ v => hc.1 hneg),
        if_neg (fun hc : neg ∧ 2 ^ 63 < v => hgt hc.2), Option.isSome_some, if_pos hneg,
        decide_eq_true (not_lt.mp hgt)]
  · by_cases hge : 2 ^ 63 ≤ v
    · rw [if_pos (⟨hneg, hge⟩ : ¬ neg ∧ 2 ^ 63 ≤ v), Option.isSome_none, if_neg hneg,
        decide_eq_false (not_lt.mpr hge)]
    · rw [if_neg (fun hc : ¬ neg ∧ 2 ^ 63 ≤ v => hge hc.2),
        if_neg (fun hc : neg ∧ 2 ^ 63 < v => hneg hc.1), Option.isSome_some, if_neg hneg,
        decide_eq_true (Nat.lt_of_not_le hge)]

theorem goParseIntRange_isSome (neg : Prop) [Decidable neg] (ds : List Char) :
    (goParseIntRange neg (goParseUint64 ds)).isSome =
      ((!ds.isEmpty && ds.all isDigitChar) &&
        if neg then decide (decValAux 0 ds ≤ 2 ^ 63) else decide (decValAux 0 ds < 2 ^ 63)) := by
  unfold goParseUint64
  by_cases he : ds.isEmpty = true
  · rw [if_pos he, he, Bool.not_true, Bool.false_and, Bool.false_and]
    rfl
  · rw [if_neg he]
    rw [Bool.not_eq_true] at he
    rw [he, Bool.not_false, Bool.true_and]
    by_cases hd : ds.all isDigitChar = true
    · rw [if_pos hd, hd, Bool.true_and]
      by_cases h64 : decValAux 0 ds < 2 ^ 64
      · rw [if_pos h64, goParseIntRange_some]
      · rw [if_neg h64,
          decide_eq_false (fun h : decValAux 0 ds ≤ 2 ^ 63 =>
            h64 (lt_of_le_of_lt h (by norm_num))),
          decide_eq_false (fun h : decValAux 0 ds < 2 ^ 63 =>
            h64 (lt_trans h (by norm_num))), ite_self]
        rfl
    · rw [if_neg hd]
      rw [Bool.not_eq_true] at hd
      rw [hd, Bool.false_and]
      rfl

theorem goAtoiOk_eq_amended (s : String) : goAtoiOk s = amendedIsIntLiteral s := by
  rcases h : s.data with _ | ⟨c, cs⟩
  · unfold goAtoiOk goAtoi? amendedIsIntLiteral
    rw [h]
    rfl
  · unfold goAtoiOk goAtoi? amendedIsIntLiteral
    rw [h]
    show (goParseIntRange (c = '-')
        (goParseUint64 (if c = '+' ∨ c = '-' then cs else c :: cs))).isSome =
      (if c = '+' then (!cs.isEmpty && cs.all isDigitChar) && decide (decValAux 0 cs < 2 ^ 63)
       else if c = '-' then
        (!cs.isEmpty && cs.all isDigitChar) && decide (decValAux 0 cs ≤ 2 ^ 63)
       else (!(c :: cs).isEmpty && (c :: cs).all isDigitChar) &&
        decide (decValAux 0 (c :: cs) < 2 ^ 63))
    rw [goParseIntRange_isSome]
    by_cases hplus : c = '+'
    · subst hplus
      rw [if_pos (Or.inl rfl : ('+' : Char) = '+' ∨ ('+' : Char) = '-'),
        if_neg (show ¬ (('+' : Char) = '-') by decide),
        if_pos (rfl : ('+' : Char) = '+')]
    · by_cases hminus : c = '-'
      · subst hminus
        rw [if_pos (Or.inr rfl : ('-' : Char) = '+' ∨ ('-' : Char) = '-'),
          if_pos (rfl : ('-' : Char) = '-'), if_neg (show ¬ (('-' : Char) = '+') by decide),
          if_pos (rfl : ('-' : Char) = '-')]
      · rw [if_neg (fun hc : c = '+' ∨ c = '-' => hc.elim hplus hminus),
          if_neg hminus, if_neg hplus, if_neg hminus]

set_option maxRecDepth 8192 in
/-- Claim C2 (amended): `DetectFieldType` equals the four-step precedence
classifier with the corrected Int and Float predicates, and reproduces the
claim's edge cases: `"0"`/`"1"` are Bool, `"007"` is Int, the empty string
and whitespace-padded numerics are String, either-case scientific notation
is Float. -/
theorem claim_classifier_amended :
    (∀ raw : String, DetectFieldType raw = amendedClassify raw) ∧
    DetectFieldType "0" = FieldTypeBool ∧ DetectFieldType "1" = FieldTypeBool ∧
    DetectFieldType "007" = FieldTypeInt ∧ DetectFieldType "" = FieldTypeString ∧
    DetectFieldType "  123  " = FieldTypeString ∧
    DetectFieldType "1.23E+02" = FieldTypeFloat ∧
    DetectFieldType "1.23e-02" = FieldTypeFloat := by
  refine ⟨fun raw => ?_, by decide, by decide, by decide, by decide, by decide, ?_, ?_⟩
  · unfold DetectFieldType amendedClassify
    rw [goAtoiOk_eq_amended]
    rfl
  · decide
  · decide


/-! ## Go maps as insertion-ordered association lists -/

/-- Go map assignment `m[k] = v` on a `map[string]string` modelled as an
association list: overwrite the value at an existing key in place,
otherwise append. -/
def mapInsert : List (String × String) → String → String → List (String × String)
  | [], k, v => [(k, v)]
  | p :: m, k, v => if p.1 = k then (k, v) :: m else p :: mapInsert m k v

/-! ## `ReadEnvFile` (source lines 284-314)

The file contents are an explicit argument (the Go function reads them
from disk first). -/

/-- Model of Go `unicode.IsSpace`: the Unicode `White_Space` property. -/
def goIsSpace (c : Char) : Bool :=
  decide (c.toNat = 0x9) || decide (c.toNat = 0xA) || decide (c.toNat = 0xB) ||
  decide (c.toNat = 0xC) || decide (c.toNat = 0xD) || decide (c.toNat = 0x20) ||
  decide (c.toNat = 0x85) || decide (c.toNat = 0xA0) || decide (c.toNat = 0x1680) ||
  decide (0x2000 ≤ c.toNat ∧ c.toNat ≤ 0x200A) || decide (c.toNat = 0x2028) ||
  decide (c.toNat = 0x2029) || decide (c.toNat = 0x202F) || decide (c.toNat = 0x205F) ||
  decide (c.toNat = 0x3000)

/-- Model of `strings.TrimSpace`: drop `White_Space` characters from both
ends. -/
def trimSpace (l : List Char) : List Char :=
  ((l.dropWhile goIsSpace).reverse.dropWhile goIsSpace).reverse

/-- Model of `strings.Split(content, "\n")`. -/
def splitLines : List Char → List (List Char)
  | [] => [[]]
  | c :: cs =>
    if c = '\n' then [] :: splitLines cs
    else
      match splitLines cs with
      | [] => [[c]]
      | l :: ls => (c :: l) :: ls

/-- Model of `strings.SplitN(line, "=", 2)`: `none` when the line has no
`=` (one part), otherwise the text before and after the first `=`. -/
def splitEq1 : List Char → Option (List Char × List Char)
  | [] => none
  | c :: cs =>
    if c = '=' then some ([], cs)
    else
      match splitEq1 cs with
      | none => none
      | some r => some (c :: r.1, r.2)

/-- One iteration of `ReadEnvFile`'s line loop: trim the line, skip it when
empty or starting with `#`, split at the first `=` (skipping lines without
one), and yield the `(name, value)` definition. -/
def envLineDef (line : List Char) : Option (String × String) :=
  let t := trimSpace line
  if t.isEmpty then none
  else if t.head? = some '#' then none
  else
    match splitEq1 t with
    | none => none
    | some r => some (⟨r.1⟩, ⟨r.2⟩)

/-- The `(name, value)` definitions of an env file in line order, before
they are folded into the map. -/
def envDefs (content : String) : List (String × String) :=
  (splitLines content.data).filterMap envLineDef

/-- `ReadEnvFile` from the source: fold the line definitions into
`envVars` by Go map assignment. -/
def ReadEnvFile (content : String) : List (String × String) :=
  (envDefs content).foldl (fun m p => mapInsert m p.1 p.2) []

/-! ## `Field` and `extractFieldsFromEnvVars` (source lines 29-35, 226-245) -/

structure Field where
  EnvName : String
  «Type» : FieldType
  Value : String
  DefaultValue : String
  Optional : Bool
deriving DecidableEq

/-- `extractFieldsFromEnvVars` from the source: one `Field` per map entry,
empty values forced to the string type, others classified by
`DetectFieldType`; the list order is the map iteration order. -/
def extractFieldsFromEnvVars (envVars : List (String × String)) : List Field :=
  envVars.map (fun p =>
    { EnvName := p.1
      «Type» := if p.2 = "" then FieldTypeString else DetectFieldType p.2
      Value := p.2
      DefaultValue := ""
      Optional := false })

/-! ## `checkEnvironmentConsistency` (source lines 248-272)

Environments and their variable maps are association lists whose order is
the Go map iteration order; the claims proved below hold for every
order. -/

/-- Union of the variable names of all environments, in first-seen order
(the Go code builds a set `map[string]bool`; only membership matters). -/
def allVarNames (allEnvVars : List (String × List (String × String))) : List String :=
  ((allEnvVars.map (fun e => e.2.map Prod.fst)).flatten).dedup

/-- Inner loop of the consistency check: the first variable of `vars`
missing from the environment's map, paired with the environment name. -/
def findMissing (envName : String) (envVars : List (String × String)) :
    List String → Option (String × String)
  | [] => none
  | v :: vs =>
    if (envVars.map Prod.fst).contains v then findMissing envName envVars vs
    else some (v, envName)

/-- Outer loop of the consistency check over the environments. -/
def checkEnvs : List (String × List (String × String)) → List String → Option (String × String)
  | [], _ => none
  | e :: es, vars =>
    match findMissing e.1 e.2 vars with
    | some r => some r
    | none => checkEnvs es vars

/-- `checkEnvironmentConsistency` from the source: `none` means success,
`some (v, env)` models the error naming missing variable `v` and
environment `env`. -/
def checkEnvironmentConsistency (allEnvVars : List (String × List (String × String))) :
    Option (String × String) :=
  if allEnvVars.length < 2 then none
  else checkEnvs allEnvVars (allVarNames allEnvVars)

/-! ## Loader lemmas: duplicate keys, empty names (claims C7, C10) -/

theorem mapInsert_lookup (m : List (String × String)) (k v q : String) :
    (mapInsert m k v).lookup q = if q = k then some v else m.lookup q := by
  induction m with
  | nil =>
    by_cases h : q = k
    · simp [mapInsert, List.lookup_cons, h]
    · have hb : (q == k) = false := beq_eq_false_iff_ne.mpr h
      simp [mapInsert, List.lookup_cons, h, hb]
  | cons p m ih =>
    obtain ⟨a, b⟩ := p
    by_cases hak : a = k
    · subst hak
      rw [show mapInsert ((a, b) :: m) a v = (a, v) :: m from by simp [mapInsert]]
      by_cases hq : q = a
      · simp [List.lookup_cons, hq]
      · have hb : (q == a) = false := beq_eq_false_iff_ne.mpr hq
        simp [List.lookup_cons, hq, hb]
    · rw [show mapInsert ((a, b) :: m) k v = (a, b) :: mapInsert m k v from by
        simp [mapInsert, hak]]
      by_cases hqa : q = a
      · have hqk : ¬ q = k := fun h => hak (hqa ▸ h)
        simp [List.lookup_cons, hqa, hqk, hak]
      · have hb : (q == a) = false := beq_eq_false_iff_ne.mpr hqa
        simp [List.lookup_cons, hqa, hb, ih]

theorem mapInsert_map_fst (m : List (String × String)) (k v : String) :
    (mapInsert m k v).map Prod.fst =
      if k ∈ m.map Prod.fst then m.map Prod.fst else m.map Prod.fst ++ [k] := by
  induction m with
  | nil => simp [mapInsert]
  | cons p m ih =>
    by_cases h : p.1 = k
    · simp [mapInsert, h]
    · have h' : ¬ k = p.1 := fun hh => h hh.symm
      by_cases hk : k ∈ m.map Prod.fst
      · simp [mapInsert, h, ih, hk, h']
      · simp [mapInsert, h, ih, hk, h']

theorem mapInsert_nodup (m : List (String × String)) (k v : String)
    (h : (m.map Prod.fst).Nodup) : ((mapInsert m k v).map Prod.fst).Nodup := by
  rw [mapInsert_map_fst]
  by_cases hk : k ∈ m.map Prod.fst
  · simpa [hk]
  · simp only [hk, if_false]
    simp [List.nodup_append, h, hk]

theorem foldl_mapInsert_nodup (ps : List (String × String)) :
    ∀ m, (m.map Prod.fst).Nodup →
      ((ps.foldl (fun acc p => mapInsert acc p.1 p.2) m).map Prod.fst).Nodup := by
  induction ps with
  | nil => intro m h; simpa using h
  | cons p ps ih => intro m h; exact ih _ (mapInsert_nodup _ _ _ h)

theorem foldl_mapInsert_lookup (ps : List (String × String)) :
    ∀ (m : List (String × String)) (q : String),
      (ps.foldl (fun acc p => mapInsert acc p.1 p.2) m).lookup q =
        match ps.reverse.find? (fun r => r.1 == q) with
        | some r => some r.2
        | none => m.lookup q := by
  induction ps with
  | nil => intro m q; rfl
  | cons p ps ih =>
    intro m q
    show (ps.foldl (fun acc p => mapInsert acc p.1 p.2) (mapInsert m p.1 p.2)).lookup q = _
    rw [ih, List.reverse_cons, List.find?_append]
    cases hf : ps.reverse.find? (fun r => r.1 == q) with
    | some r => simp
    | none =>
      rw [mapInsert_lookup]
      by_cases hq : q = p.1
      · simp [List.find?_cons, hq]
      · have hne : (p.1 == q) = false := beq_eq_false_iff_ne.mpr (fun h => hq h.symm)
        simp [List.find?_cons, hq, hne]

/-- Claim C7: `ReadEnvFile` yields at most one entry per variable name
(its name list has no duplicates), and the value recorded for a name is the
right-hand side of the last (bottom-most) line defining it; earlier
duplicate definitions are silently overwritten. -/
theorem claim_duplicate_last_wins (content : String) (k : String) :
    ((ReadEnvFile content).map Prod.fst).Nodup ∧
    (ReadEnvFile content).lookup k =
      ((envDefs content).reverse.find? (fun r => r.1 == k)).map Prod.snd := by
  constructor
  · exact foldl_mapInsert_nodup _ _ (by simp)
  · show ((envDefs content).foldl (fun m p => mapInsert m p.1 p.2) []).lookup k = _
    rw [foldl_mapInsert_lookup]
    cases hf : (envDefs content).reverse.find? (fun r => r.1 == k) with
    | some r => rfl
    | none => rfl

/-- Claim C10: a trimmed line starting with `=` is not skipped: it defines
a variable whose name is the empty string and whose value is everything
after the first `=`; and field extraction turns every map entry, an
empty-named one included, into a field with that name and value. -/
theorem claim_empty_name_line (line rest : List Char) (h : trimSpace line = '=' :: rest) :
    envLineDef line = some (⟨[]⟩, ⟨rest⟩) ∧
    ∀ m : List (String × String),
      (extractFieldsFromEnvVars m).map (fun f => (f.EnvName, f.Value)) = m := by
  constructor
  · unfold envLineDef
    rw [h]
    simp [splitEq1]
  · intro m
    induction m with
    | nil => rfl
    | cons p m ih => simp [extractFieldsFromEnvVars] at ih ⊢; exact ih

theorem claim_empty_name_line_witness :
    trimSpace ("=abc".data) = '=' :: "abc".data ∧
    (envLineDef ("=abc".data) = some (⟨[]⟩, ⟨"abc".data⟩) ∧
      ∀ m : List (String × String),
        (extractFieldsFromEnvVars m).map (fun f => (f.EnvName, f.Value)) = m) :=
  ⟨by decide, claim_empty_name_line ("=abc".data) ("abc".data) (by decide)⟩

/-! ## Consistency-check lemmas (claim C4) -/

theorem findMissing_eq_none (en : String) (m : List (String × String)) :
    ∀ vars, findMissing en m vars = none ↔ ∀ v ∈ vars, v ∈ m.map Prod.fst := by
  intro vars
  induction vars with
  | nil =>
    constructor
    · intro _ v hv; exact absurd hv (List.not_mem_nil v)
    · intro _; rfl
  | cons v vs ih =>
    unfold findMissing
    by_cases hv : (m.map Prod.fst).contains v = true
    · rw [if_pos hv, ih]
      constructor
      · intro h w hw
        rcases List.mem_cons.mp hw with rfl | hw'
        · exact List.elem_iff.mp hv
        · exact h w hw'
      · intro h w hw
        exact h w (List.mem_cons_of_mem _ hw)
    · rw [if_neg hv]
      constructor
      · intro h
        exact absurd h (by simp)
      · intro h
        exact absurd (List.elem_iff.mpr (h v (List.mem_cons_self v vs))) hv

theorem findMissing_eq_some (en : String) (m : List (String × String)) :
    ∀ vars v en', findMissing en m vars = some (v, en') →
      en' = en ∧ v ∈ vars ∧ v ∉ m.map Prod.fst := by
  intro vars
  induction vars with
  | nil => intro v en' h; exact absurd h (by simp [findMissing])
  | cons w ws ih =>
    intro v en' h
    unfold findMissing at h
    by_cases hw : (m.map Prod.fst).contains w = true
    · rw [if_pos hw] at h
      obtain ⟨h1, h2, h3⟩ := ih v en' h
      exact ⟨h1, List.mem_cons_of_mem _ h2, h3⟩
    · rw [if_neg hw] at h
      have h2 := Option.some.inj h
      have hwv : w = v := congrArg Prod.fst h2
      have hen : en' = en := (congrArg Prod.snd h2).symm
      subst hwv
      exact ⟨hen, List.mem_cons_self _ _, fun hm => hw (List.elem_iff.mpr hm)⟩

theorem checkEnvs_eq_none (vars : List String) :
    ∀ es, checkEnvs es vars = none ↔
      ∀ e ∈ es, ∀ v ∈ vars, v ∈ e.2.map Prod.fst := by
  intro es
  induction es with
  | nil => simp [checkEnvs]
  | cons e es ih =>
    cases hf : findMissing e.1 e.2 vars with
    | some r =>
      simp only [checkEnvs, hf]
      constructor
      · intro h; exact absurd h (by simp)
      · intro h
        obtain ⟨h1, h2, h3⟩ := findMissing_eq_some e.1 e.2 vars r.1 r.2 (by simpa using hf)
        exact absurd (h e (List.mem_cons_self e es) r.1 h2) h3
    | none =>
      simp only [checkEnvs, hf, ih]
      constructor
      · intro h
        intro x hx v hv
        rcases List.mem_cons.mp hx with rfl | hx'
        · exact (findMissing_eq_none x.1 x.2 vars).mp hf v hv
        · exact h x hx' v hv
      · intro h x hx v hv
        exact h x (List.mem_cons_of_mem _ hx) v hv

theorem checkEnvs_eq_some (vars : List String) :
    ∀ es v en, checkEnvs es vars = some (v, en) →
      ∃ e ∈ es, e.1 = en ∧ v ∈ vars ∧ v ∉ e.2.map Prod.fst := by
  intro es
  induction es with
  | nil => intro v en h; exact absurd h (by simp [checkEnvs])
  | cons e es ih =>
    intro v en h
    cases hf : findMissing e.1 e.2 vars with
    | some r =>
      rw [show checkEnvs (e :: es) vars = some r from by simp [checkEnvs, hf]] at h
      rw [Option.some.inj h] at hf
      obtain ⟨h1, h2, h3⟩ := findMissing_eq_some e.1 e.2 vars v en hf
      exact ⟨e, List.mem_cons_self e es, h1.symm, h2, h3⟩
    | none =>
      rw [show checkEnvs (e :: es) vars = checkEnvs es vars from by simp [checkEnvs, hf]] at h
      obtain ⟨x, hx, h1, h2, h3⟩ := ih v en h
      exact ⟨x, List.mem_cons_of_mem _ hx, h1, h2, h3⟩

theorem mem_allVarNames (xs : List (String × List (String × String))) (v : String) :
    v ∈ allVarNames xs ↔ ∃ e ∈ xs, v ∈ e.2.map Prod.fst := by
  unfold allVarNames
  rw [List.mem_dedup, List.mem_flatten]
  constructor
  · rintro ⟨l, hl, hv⟩
    obtain ⟨e, he, rfl⟩ := List.mem_map.mp hl
    exact ⟨e, he, hv⟩
  · rintro ⟨e, he, hv⟩
    exact ⟨e.2.map Prod.fst, List.mem_map.mpr ⟨e, he, rfl⟩, hv⟩

/-- Claim C4: the consistency check succeeds whenever fewer than two
environments are given; with two or more it succeeds exactly when every
environment contains every variable name appearing in any environment; and
a reported `(variable, environment)` pair is a real violation: the
variable occurs in some environment but is genuinely absent from the named
one. -/
theorem claim_consistency_check (allEnvVars : List (String × List (String × String))) :
    (allEnvVars.length < 2 → checkEnvironmentConsistency allEnvVars = none) ∧
    (2 ≤ allEnvVars.length →
      (checkEnvironmentConsistency allEnvVars = none ↔
        ∀ e ∈ allEnvVars, ∀ e' ∈ allEnvVars, ∀ v ∈ e'.2.map Prod.fst, v ∈ e.2.map Prod.fst)) ∧
    (∀ v en, checkEnvironmentConsistency allEnvVars = some (v, en) →
      ∃ e ∈ allEnvVars, e.1 = en ∧ v ∉ e.2.map Prod.fst ∧
        ∃ e' ∈ allEnvVars, v ∈ e'.2.map Prod.fst) := by
  refine ⟨?_, ?_, ?_⟩
  · intro h
    unfold checkEnvironmentConsistency
    rw [if_pos h]
  · intro h
    unfold checkEnvironmentConsistency
    rw [if_neg (not_lt.mpr h), checkEnvs_eq_none]
    constructor
    · intro hall e he e' he' v hv
      exact hall e he v ((mem_allVarNames _ _).mpr ⟨e', he', hv⟩)
    · intro hall e he v hv
      obtain ⟨e', he', hv'⟩ := (mem_allVarNames _ _).mp hv
      exact hall e he e' he' v hv'
  · intro v en h
    unfold checkEnvironmentConsistency at h
    by_cases hlen : allEnvVars.length < 2
    · rw [if_pos hlen] at h; exact absurd h (by simp)
    · rw [if_neg hlen] at h
      obtain ⟨e, he, h1, h2, h3⟩ := checkEnvs_eq_some _ _ v en h
      exact ⟨e, he, h1, h3, (mem_allVarNames _ _).mp h2⟩

theorem claim_consistency_check_witness :
    checkEnvironmentConsistency
        [("dev", [("A", "1"), ("B", "2")]), ("prod", [("A", "1")])] = some ("B", "prod") ∧
    (∃ e ∈ [("dev", [("A", "1"), ("B", "2")]), ("prod", [("A", "1")])],
      e.1 = "prod" ∧ "B" ∉ e.2.map Prod.fst ∧
        ∃ e' ∈ [("dev", [("A", "1"), ("B", "2")]), ("prod", [("A", "1")])],
          "B" ∈ e'.2.map Prod.fst) :=
  ⟨by decide,
    (claim_consistency_check [("dev", [("A", "1"), ("B", "2")]), ("prod", [("A", "1")])]).2.2
      "B" "prod" (by decide)⟩

/-! ## `generateObfuscatedField` and the code emitter (source lines 176-202,
353-439, 563-701)

`fmt.Fprintf` calls become string concatenation; the generated text is the
concatenation in call order.  Go map iteration order over the environments
and obfuscation tables is an explicit list order. -/

structure ObfuscationResult where
  KeyName : String
  ValueName : String
  Key : List Int
  Value : List Int
deriving DecidableEq

/-- `generateObfuscatedField` from the source: string and float fields get
obfuscated key/data arrays, other types yield `nil`. -/
def generateObfuscatedField (fieldName : String) (fieldType : FieldType) (value : String)
    (seed now : Int) : Option ObfuscationResult :=
  if fieldType = FieldTypeString ∨ fieldType = FieldTypeFloat then
    some { KeyName := "_enviedkey" ++ fieldName
           ValueName := "_envieddata" ++ fieldName
           Key := (ObfuscateString value seed now).1
           Value := (ObfuscateString value seed now).2 }
  else none

/-- Per-environment data of the merged template (the anonymous struct in
`GenerateFromConfigFile`); the obfuscation table is an association list in
map iteration order. -/
structure EnvData where
  StructName : String
  Fields : List Field
  Obfuscated : List (String × Option ObfuscationResult)

/-- The merged template data; `Environments` carries the map iteration
order. -/
structure MergedData where
  PackageName : String
  RandomSeed : Int
  Environments : List (String × EnvData)
  AllFields : List Field

/-- Go `%d` for `int`. -/
def intDec (n : Int) : String :=
  if n < 0 then "-" ++ Nat.repr (-n).toNat else Nat.repr n.toNat

/-- Comma-separated rendering of an `[]int` body (`%d` per element, `", "`
before every element but the first). -/
def intListBody : List Int → String
  | [] => ""
  | [x] => intDec x
  | x :: xs => intDec x ++ ", " ++ intListBody xs

/-- Model of `strings.ToUpper` (exact on ASCII text, which is what
environment names are; code points above `z` are kept). -/
def goToUpper (s : String) : String :=
  ⟨s.data.map (fun c => if 'a' ≤ c ∧ c ≤ 'z' then Char.ofNat (c.toNat - 32) else c)⟩

/-- One accessor line of the shared interface:
`fmt.Fprintf(file, "\tGet%s() %s\n", field.EnvName, field.Type)`. -/
def accessorLine (f : Field) : String :=
  "\tGet" ++ f.EnvName ++ "() " ++ f.«Type» ++ "\n"

/-- The `ConfigInterface` block of `generateCodeDirectly`. -/
def interfaceBlock (allFields : List Field) : String :=
  "// ConfigInterface defines the interface for all generated configurations\n" ++
  "type ConfigInterface interface \x7b\n" ++
  String.join (allFields.map accessorLine) ++
  "\x7d\n\n"

/-- The static key/data constants emitted for one obfuscated field (`nil`
entries are skipped by the `continue`).  The source switches on the
dynamic type of `Key`/`Value`; for this generator they are always
`[]int`. -/
def obfConstBlock (envName fieldName : String) : Option ObfuscationResult → String
  | none => ""
  | some o =>
    "// Static key for " ++ fieldName ++ " in " ++ envName ++ " environment\n" ++
    "var " ++ goToUpper envName ++ "_" ++ o.KeyName ++ " = []int\x7b" ++
    intListBody o.Key ++ "\x7d\n\n" ++
    (if o.ValueName ≠ fieldName then
      "// Static encrypted data for " ++ fieldName ++ " in " ++ envName ++ " environment\n" ++
      "var " ++ goToUpper envName ++ "_" ++ o.ValueName ++ " = []int\x7b" ++
      intListBody o.Value ++ "\x7d\n\n"
    else "")

/-- One constructor field line.  When the obfuscation table has an entry
for the field the source switches on the field type (a `nil` entry with a
string/float type would dereference a nil pointer in Go; that path is
unreachable for table entries built by `GenerateFromConfigFile` and is
rendered here as the empty string). -/
def constructorLine (envName : String) (obfuscated : List (String × Option ObfuscationResult))
    (f : Field) : String :=
  match List.lookup f.EnvName obfuscated with
  | some obf =>
    if f.«Type» = FieldTypeString then
      match obf with
      | some o =>
        "\t\t" ++ f.EnvName ++ ": envied.DeobfuscateString(" ++
        goToUpper envName ++ "_" ++ o.KeyName ++ ", " ++
        goToUpper envName ++ "_" ++ o.ValueName ++ "),\n"
      | none => ""
    else if f.«Type» = FieldTypeFloat then
      match obf with
      | some o =>
        "\t\t" ++ f.EnvName ++ ": envied.ParseFloat(envied.DeobfuscateString(" ++
        goToUpper envName ++ "_" ++ o.KeyName ++ ", " ++
        goToUpper envName ++ "_" ++ o.ValueName ++ ")),\n"
      | none => ""
    else if f.«Type» = FieldTypeInt then
      "\t\t" ++ f.EnvName ++ ": envied.ParseInt(\"" ++ f.Value ++ "\"),\n"
    else if f.«Type» = FieldTypeBool then
      "\t\t" ++ f.EnvName ++ ": envied.ParseBool(\"" ++ f.Value ++ "\"),\n"
    else
      "\t\t" ++ f.EnvName ++ ": \"" ++ f.Value ++ "\",\n"
  | none =>
    if f.«Type» = FieldTypeInt then
      "\t\t" ++ f.EnvName ++ ": envied.ParseInt(\"" ++ f.Value ++ "\"),\n"
    else if f.«Type» = FieldTypeBool then
      "\t\t" ++ f.EnvName ++ ": envied.ParseBool(\"" ++ f.Value ++ "\"),\n"
    else
      "\t\t" ++ f.EnvName ++ ": \"" ++ f.Value ++ "\",\n"

/-- Everything `generateCodeDirectly` writes for one environment:
obfuscated constants, struct, constructor, getter methods. -/
def envBlock (envName : String) (d : EnvData) : String :=
  String.join (d.Obfuscated.map (fun p => obfConstBlock envName p.1 p.2)) ++
  "// " ++ d.StructName ++ "Config - generated configuration for " ++ envName ++
    " environment\n" ++
  "type " ++ d.StructName ++ "Config struct \x7b\n" ++
  String.join (d.Fields.map (fun f => "\t" ++ f.EnvName ++ " " ++ f.«Type» ++ "\n")) ++
  "\x7d\n\n" ++
  "// New" ++ d.StructName ++ "Config creates a new configuration for " ++ envName ++
    " environment\n" ++
  "func New" ++ d.StructName ++ "Config() *" ++ d.StructName ++ "Config \x7b\n" ++
  "\treturn &" ++ d.StructName ++ "Config\x7b\n" ++
  String.join (d.Fields.map (constructorLine envName d.Obfuscated)) ++
  "\t\x7d\n\x7d\n\n" ++
  "// Getter methods for " ++ d.StructName ++ "Config\n" ++
  String.join (d.Fields.map (fun f =>
    "func (c *" ++ d.StructName ++ "Config) Get" ++ f.EnvName ++ "() " ++ f.«Type» ++
    " \x7b\n" ++ "\treturn c." ++ f.EnvName ++ "\n\x7d\n\n"))

/-- `generateCodeDirectly` from the source: header, import, shared
interface, then every environment in iteration order. -/
def generateCodeDirectly (m : MergedData) : String :=
  "// Code generated by go-envied. DO NOT EDIT.\n" ++
  "// Generated merged configuration file for all environments\n\n" ++
  "package " ++ m.PackageName ++ "\n\n" ++
  "import \"github.com/petrovyuri/go-envied\"\n\n" ++
  interfaceBlock m.AllFields ++
  String.join (m.Environments.map (fun e => envBlock e.1 e.2))

/-- The per-environment data `GenerateFromConfigFile` assembles: extracted
fields, and the obfuscation table holding one entry per field with a
non-empty value (`nil` for types that need no obfuscation). -/
def buildEnvData (structName : String) (envVars : List (String × String)) (seed now : Int) :
    EnvData :=
  { StructName := structName
    Fields := extractFieldsFromEnvVars envVars
    Obfuscated := ((extractFieldsFromEnvVars envVars).filter (fun f => f.Value ≠ "")).map
      (fun f => (f.EnvName, generateObfuscatedField f.EnvName f.«Type» f.Value seed now)) }

/-- `GenerateFromConfigFile` from the source, after the environment files
are read: abort on a failed consistency check, otherwise emit the merged
file.  `envs` lists `(environment name, struct name, variables)` in map
iteration order; the reference field list for the shared interface is the
environment named `"dev"` (none: Go's nil map, no fields). -/
def GenerateFromConfigFile (packageName : String) (seed now : Int)
    (envs : List (String × String × List (String × String))) : Option String :=
  if checkEnvironmentConsistency (envs.map (fun e => (e.1, e.2.2))) ≠ none then none
  else some (generateCodeDirectly
    { PackageName := packageName
      RandomSeed := seed
      Environments := envs.map (fun e => (e.1, buildEnvData e.2.1 e.2.2 seed now))
      AllFields := extractFieldsFromEnvVars
        (((envs.map (fun e => (e.1, e.2.2))).lookup "dev").getD []) })

/-! ## Emission order-dependence (claim C3) and the shared interface
(claim C8) -/

/-- A two-environment configuration used to exercise the emitter: both
environments define the same single variable, so the consistency check
passes. -/
def demoEnvs : List (String × String × List (String × String)) :=
  [("dev", "Dev", [("A", "x")]), ("prod", "Prod", [("A", "y")])]

/-- The same environments in the other map iteration order. -/
def demoEnvsSwapped : List (String × String × List (String × String)) :=
  [("prod", "Prod", [("A", "y")]), ("dev", "Dev", [("A", "x")])]

set_option maxRecDepth 100000 in
/-- Claim C3 (refuting the code): the emitter iterates the environment map
without sorting, so two iteration orders of the same logical input — the
two lists are permutations of each other, i.e. the same `map[string]…` —
produce different output bytes.  Go randomizes map iteration order per
run, so two runs on the same input need not emit identical text. -/
theorem claim_emission_order_dependent :
    demoEnvs.Perm demoEnvsSwapped ∧
    GenerateFromConfigFile "config" 1 0 demoEnvs ≠
      GenerateFromConfigFile "config" 1 0 demoEnvsSwapped := by
  constructor
  · decide
  · decide

theorem filter_envName_singleton (l : List Field) (h : (l.map Field.EnvName).Nodup)
    (f : Field) (hf : f ∈ l) : l.filter (fun g => g.EnvName == f.EnvName) = [f] := by
  induction l with
  | nil => cases hf
  | cons g l ih =>
    rw [List.map_cons, List.nodup_cons] at h
    rcases List.mem_cons.mp hf with rfl | hf'
    · rw [List.filter_cons_of_pos (by simp)]
      have hnil : l.filter (fun x => x.EnvName == f.EnvName) = [] := by
        rw [List.filter_eq_nil_iff]
        intro a ha hc
        exact h.1 ((beq_iff_eq.mp hc) ▸ List.mem_map.mpr ⟨a, ha, rfl⟩)
      rw [hnil]
    · have hne : g.EnvName ≠ f.EnvName := by
        intro hc
        exact h.1 (hc ▸ List.mem_map.mpr ⟨f, hf', rfl⟩)
      rw [List.filter_cons_of_neg (by simp [hne])]
      exact ih h.2 hf'

/-- What the emitted artifact promises about the shared accessor contract
relative to a reference field list: the text contains the joined accessor
lines of the reference fields, each accessor line is `Get<name>() <type>`
for its field, and under unique field names each name has exactly one
accessor (the field's own). -/
def SharedInterfaceContract (refFields : List Field) (out : String) : Prop :=
  (∃ pre post, out = pre ++ String.join (refFields.map accessorLine) ++ post) ∧
  (∀ f ∈ refFields, accessorLine f = "\tGet" ++ f.EnvName ++ "() " ++ f.«Type» ++ "\n") ∧
  ((refFields.map Field.EnvName).Nodup →
    ∀ f ∈ refFields, refFields.filter (fun g => g.EnvName == f.EnvName) = [f])

/-- Claim C8: whenever `GenerateFromConfigFile` emits an artifact, its
shared interface block declares one `Get<FieldName>` accessor returning
the declared type for every field of the reference field list — the fields
extracted from the environment named `"dev"` (the primary environment). -/
theorem claim_shared_interface (packageName : String) (seed now : Int)
    (envs : List (String × String × List (String × String))) (out : String)
    (hgen : GenerateFromConfigFile packageName seed now envs = some out) :
    SharedInterfaceContract
      (extractFieldsFromEnvVars (((envs.map (fun e => (e.1, e.2.2))).lookup "dev").getD []))
      out := by
  unfold GenerateFromConfigFile at hgen
  by_cases hc : checkEnvironmentConsistency (envs.map (fun e => (e.1, e.2.2))) ≠ none
  · rw [if_pos hc] at hgen
    exact absurd hgen (by simp)
  · rw [if_neg hc] at hgen
    have hout := Option.some.inj hgen
    refine ⟨⟨?_, ?_, ?_⟩, fun f _ => rfl, fun hnd f hf => filter_envName_singleton _ hnd f hf⟩
    · exact "// Code generated by go-envied. DO NOT EDIT.\n" ++
        "// Generated merged configuration file for all environments\n\n" ++
        "package " ++ packageName ++ "\n\n" ++
        "import \"github.com/petrovyuri/go-envied\"\n\n" ++
        "// ConfigInterface defines the interface for all generated configurations\n" ++
        "type ConfigInterface interface \x7b\n"
    · exact "\x7d\n\n" ++
        String.join ((envs.map (fun e => (e.1, buildEnvData e.2.1 e.2.2 seed now))).map
          (fun e => envBlock e.1 e.2))
    · rw [← hout]
      simp only [generateCodeDirectly, interfaceBlock, String.append_assoc]

set_option maxRecDepth 100000 in
theorem claim_shared_interface_witness :
    GenerateFromConfigFile "config" 1 0 demoEnvs =
      some ((GenerateFromConfigFile "config" 1 0 demoEnvs).getD "") ∧
    SharedInterfaceContract
      (extractFieldsFromEnvVars
        (((demoEnvs.map (fun e => (e.1, e.2.2))).lookup "dev").getD []))
      ((GenerateFromConfigFile "config" 1 0 demoEnvs).getD "") :=
  ⟨by rfl,
    claim_shared_interface "config" 1 0 demoEnvs
      ((GenerateFromConfigFile "config" 1 0 demoEnvs).getD "") (by rfl)⟩

end GoEnvied
